/-
Verification of the spatial-algebra / RNEA inverse-dynamics core of the
Pinocchio_Golf_Model repository.

The Python sources embedded here (shallowly, over the reals) are:
  - mujoco_golf_pendulum/spatial_algebra/spatial_vectors.py (skew, crm, crf)
  - mujoco_golf_pendulum/spatial_algebra/transforms.py (xrot, xlt, xtrans, inv_xtrans)
  - mujoco_golf_pendulum/spatial_algebra/joints.py (jcalc)
  - mujoco_golf_pendulum/rigid_body_dynamics/rnea.py (rnea)

Numpy float arithmetic is modelled by real arithmetic.  Fixed-shape numpy
arrays become functions out of Fin n / Matrix; runtime shape and value checks
(asserts, ValueError raises, out-of-bounds indexing) become an Except monad
over the error taxonomy of the spec (DimensionMismatch, ShapeError,
UnsupportedJointType, InvalidRotation, plus IndexError for numpy's own
out-of-bounds failure).  The imperative buffers v, a, f, tau of rnea are
modelled by a state record Mem threaded through the two sweeps, so that
mutation (and absence of mutation of the caller-supplied data) is explicit.
-/
import Mathlib

namespace PinocchioGolf

open Matrix

abbrev Vec3 := Fin 3 → ℝ
abbrev Vec6 := Fin 6 → ℝ
abbrev Mat3 := Matrix (Fin 3) (Fin 3) ℝ
abbrev Mat6 := Matrix (Fin 6) (Fin 6) ℝ

/-- Error taxonomy of the spec (section 7): ShapeError for primitive shape
asserts, DimensionMismatch for the q/qd/qdd length asserts of rnea,
UnsupportedJointType for an unrecognized jcalc tag, InvalidRotation for the
xrot determinant check, and IndexError for numpy out-of-bounds column access
(the only failure mode the code itself has for a malformed f_ext). -/
inductive Err where
  | dimensionMismatch
  | shapeError
  | unsupportedJointType
  | invalidRotation
  | indexError
  deriving DecidableEq

/-- Builds a 6x6 matrix out of four 3x3 blocks, as np.block does:
[[A, B], [C, D]]. -/
def blk (A B C D : Mat3) : Mat6 :=
  Matrix.reindex finSumFinEquiv finSumFinEquiv (Matrix.fromBlocks A B C D)

/-- skew (spatial_vectors.py): 3x3 skew-symmetric matrix of a 3-vector,
np.array([[0, -v2, v1], [v2, 0, -v0], [-v1, v0, 0]]). -/
def skew (v : Vec3) : Mat3 :=
  !![0, -v 2, v 1; v 2, 0, -v 0; -v 1, v 0, 0]

/-- Angular part w = v[:3] of a 6-vector. -/
def angOf (v : Vec6) : Vec3 := ![v 0, v 1, v 2]

/-- Linear part vlin = v[3:] of a 6-vector. -/
def linOf (v : Vec6) : Vec3 := ![v 3, v 4, v 5]

/-- crm (spatial_vectors.py): motion cross-product operator
np.block([[w_skew, 0], [v_skew, w_skew]]). -/
def crm (v : Vec6) : Mat6 :=
  blk (skew (angOf v)) 0 (skew (linOf v)) (skew (angOf v))

/-- crf (spatial_vectors.py): force cross-product operator
np.block([[w_skew, v_skew], [0, w_skew]]). -/
def crf (v : Vec6) : Mat6 :=
  blk (skew (angOf v)) (skew (linOf v)) 0 (skew (angOf v))

/-- np.isclose(a, b, atol=1e-6) with numpy's default rtol = 1e-5:
|a - b| <= atol + rtol * |b|. -/
def isclose (a b : ℝ) : Prop := |a - b| ≤ 1e-6 + 1e-5 * |b|

noncomputable instance (a b : ℝ) : Decidable (isclose a b) := by
  unfold isclose; infer_instance

/-- xrot (transforms.py): raises when np.isclose(det E, 1.0, atol=1e-6)
fails, else returns np.block([[E, 0], [0, E]]).  Note the code checks only
the determinant, not orthonormality. -/
noncomputable def xrot (E : Mat3) : Except Err Mat6 :=
  if isclose E.det 1 then .ok (blk E 0 0 E) else .error .invalidRotation

/-- xlt (transforms.py): np.block([[I, 0], [-skew r, I]]). -/
def xlt (r : Vec3) : Mat6 := blk 1 0 (-(skew r)) 1

/-- xtrans (transforms.py): np.block([[E, 0], [-E @ skew r, E]]). -/
def xtrans (E : Mat3) (r : Vec3) : Mat6 := blk E 0 (-(E * skew r)) E

/-- inv_xtrans (transforms.py): np.block([[E.T, 0], [skew r @ E.T, E.T]]). -/
def inv_xtrans (E : Mat3) (r : Vec3) : Mat6 := blk Eᵀ 0 (skew r * Eᵀ) Eᵀ

/-- Rotation about x used by jcalc for tag Rx:
[[1,0,0],[0,c,-s],[0,s,c]]. -/
noncomputable def rotx (q : ℝ) : Mat3 :=
  !![1, 0, 0; 0, Real.cos q, -Real.sin q; 0, Real.sin q, Real.cos q]

/-- Rotation about y used by jcalc for tag Ry:
[[c,0,s],[0,1,0],[-s,0,c]]. -/
noncomputable def roty (q : ℝ) : Mat3 :=
  !![Real.cos q, 0, Real.sin q; 0, 1, 0; -Real.sin q, 0, Real.cos q]

/-- Rotation about z used by jcalc for tag Rz:
[[c,-s,0],[s,c,0],[0,0,1]]. -/
noncomputable def rotz (q : ℝ) : Mat3 :=
  !![Real.cos q, -Real.sin q, 0; Real.sin q, Real.cos q, 0; 0, 0, 1]

/-- jcalc (joints.py): string-dispatched joint transform and motion
subspace.  The revolute branches go through xrot (whose determinant check
can in principle fail); unknown tags raise. -/
noncomputable def jcalc (jtype : String) (q : ℝ) : Except Err (Mat6 × Vec6) :=
  if jtype = "Rx" then (xrot (rotx q)).map (fun X => (X, ![1, 0, 0, 0, 0, 0]))
  else if jtype = "Ry" then (xrot (roty q)).map (fun X => (X, ![0, 1, 0, 0, 0, 0]))
  else if jtype = "Rz" then (xrot (rotz q)).map (fun X => (X, ![0, 0, 1, 0, 0, 0]))
  else if jtype = "Px" then .ok (xlt ![q, 0, 0], ![0, 0, 0, 1, 0, 0])
  else if jtype = "Py" then .ok (xlt ![0, q, 0], ![0, 0, 0, 0, 1, 0])
  else if jtype = "Pz" then .ok (xlt ![0, 0, q], ![0, 0, 0, 0, 0, 1])
  else .error .unsupportedJointType

/-- The closed tag enumeration accepted by jcalc. -/
def ValidTag (t : String) : Prop :=
  t = "Rx" ∨ t = "Ry" ∨ t = "Rz" ∨ t = "Px" ∨ t = "Py" ∨ t = "Pz"

instance (t : String) : Decidable (ValidTag t) := by
  unfold ValidTag; infer_instance

/-- The value jcalc returns on a valid tag (garbage on an invalid one);
used to name the (Xj, S) pair inside summations. -/
noncomputable def jcalcEl (jtype : String) (q : ℝ) : Mat6 × Vec6 :=
  (jcalc jtype q).toOption.getD (1, 0)

/-- The robot model dictionary of rnea.py: NB, parent (-1 for the base),
jtype, Xtree, I, and the optional gravity entry.  The per-body arrays are
modelled as functions of the body index. -/
structure Model where
  nb : ℕ
  parent : ℕ → ℤ
  jtype : ℕ → String
  Xtree : ℕ → Mat6
  I : ℕ → Mat6
  gravity : Option Vec6

/-- Topological well-formedness of the kinematic tree (spec section 3):
parent[i] < i, with -1 denoting the fixed base. -/
def Model.WF (m : Model) : Prop :=
  ∀ i, i < m.nb → -1 ≤ m.parent i ∧ m.parent i < (i : ℤ)

/-- model.get("gravity", np.array([0, 0, 0, 0, 0, -9.81])). -/
noncomputable def aGrav (m : Model) : Vec6 :=
  m.gravity.getD ![0, 0, 0, 0, 0, -(9.81 : ℝ)]

/-- The memory visible during one rnea call: the caller-supplied model,
q, qd, qdd and f_ext (f_ext = none models the omitted argument), plus the
per-call buffers v, a, f, tau that the two sweeps mutate. -/
structure Mem where
  model : Model
  q : List ℝ
  qd : List ℝ
  qdd : List ℝ
  fext : Option (List Vec6)
  v : ℕ → Vec6
  a : ℕ → Vec6
  f : ℕ → Vec6
  tau : ℕ → ℝ

/-- The f_ext columns actually read by the backward sweep: the supplied
6xNB array (as a list of its NB columns) or the all-zero default. -/
def fextCols (nb : ℕ) (fext : Option (List Vec6)) : List Vec6 :=
  fext.getD (List.replicate nb (0 : Vec6))

/-- Memory at the start of a call: caller data plus the freshly allocated
all-zero buffers np.zeros((6, nb)) and np.zeros(nb). -/
def mkMem (m : Model) (q qd qdd : List ℝ) (fext : Option (List Vec6)) : Mem :=
  ⟨m, q, qd, qdd, fext, fun _ => 0, fun _ => 0, fun _ => 0, fun _ => 0⟩

/-- One iteration of the forward (kinematics) sweep of rnea.py, body i.
Mirrors lines 82-111: (Xj, S) = jcalc(jtype[i], q[i]); vJ = S * qd[i];
base bodies use Xj alone (not Xj @ Xtree[i]) and fold gravity into a;
non-base bodies use Xup = Xj @ Xtree[i] against the parent state.
Only the v and a buffers are written. -/
noncomputable def fwdStep (mem : Mem) (i : ℕ) : Except Err Mem :=
  match jcalc (mem.model.jtype i) (mem.q.getD i 0) with
  | .error e => .error e
  | .ok (Xj, S) =>
    let vJ : Vec6 := mem.qd.getD i 0 • S
    if mem.model.parent i = -1 then
      .ok { mem with
        v := Function.update mem.v i vJ,
        a := Function.update mem.a i
          (Xj *ᵥ (-(aGrav mem.model)) + mem.qdd.getD i 0 • S) }
    else
      let p := (mem.model.parent i).toNat
      let Xup := Xj * mem.model.Xtree i
      let vi := Xup *ᵥ mem.v p + vJ
      .ok { mem with
        v := Function.update mem.v i vi,
        a := Function.update mem.a i
          (Xup *ᵥ mem.a p + mem.qdd.getD i 0 • S + crm vi *ᵥ vJ) }

/-- One iteration of the backward (dynamics) sweep of rnea.py, body i.
Mirrors lines 113-136: f[i] += I[i] @ a[i] + crf(v[i]) @ (I[i] @ v[i])
- f_ext[:, i]; tau[i] = S @ f[i] with S recomputed by jcalc; then
f[parent[i]] += (Xj @ Xtree[i]).T @ f[i] when a parent exists.  The f_ext
column access is guarded by the numpy bounds check (IndexError); the source
calls jcalc twice with identical arguments, modelled by one call whose two
components are used. -/
noncomputable def bwdStep (mem : Mem) (i : ℕ) : Except Err Mem :=
  let cols := fextCols mem.model.nb mem.fext
  if i < cols.length then
    match jcalc (mem.model.jtype i) (mem.q.getD i 0) with
    | .error e => .error e
    | .ok (Xj, S) =>
      let fbody : Vec6 :=
        mem.model.I i *ᵥ mem.a i + crf (mem.v i) *ᵥ (mem.model.I i *ᵥ mem.v i)
          - cols.getD i 0
      let f1 := Function.update mem.f i (mem.f i + fbody)
      let tau1 := Function.update mem.tau i (S ⬝ᵥ f1 i)
      if mem.model.parent i = -1 then
        .ok { mem with f := f1, tau := tau1 }
      else
        let p := (mem.model.parent i).toNat
        let Xup := Xj * mem.model.Xtree i
        .ok { mem with f := Function.update f1 p (f1 p + Xupᵀ *ᵥ f1 i), tau := tau1 }
  else .error .indexError

/-- Forward sweep: for i in range(nb), here run up to the first k bodies. -/
noncomputable def fwdN (mem : Mem) : ℕ → Except Err Mem
  | 0 => .ok mem
  | k + 1 =>
    match fwdN mem k with
    | .error e => .error e
    | .ok m => fwdStep m k

/-- Backward sweep: for i in range(nb-1, -1, -1); bwdN mem k processes the
bodies k-1, k-2, ..., 0 in that (strictly decreasing) order. -/
noncomputable def bwdN (mem : Mem) : ℕ → Except Err Mem
  | 0 => .ok mem
  | k + 1 =>
    match bwdStep mem k with
    | .error e => .error e
    | .ok m => bwdN m k

/-- rnea.py lines 60-138 over a memory: the three length asserts (the spec's
DimensionMismatch), fresh zero buffers, the forward sweep, the backward
sweep, and the returned tau of length NB together with the final memory. -/
noncomputable def rneaMem (mem : Mem) : Except Err (Mem × List ℝ) :=
  if mem.q.length ≠ mem.model.nb then .error .dimensionMismatch
  else if mem.qd.length ≠ mem.model.nb then .error .dimensionMismatch
  else if mem.qdd.length ≠ mem.model.nb then .error .dimensionMismatch
  else
    match fwdN (mkMem mem.model mem.q mem.qd mem.qdd mem.fext) mem.model.nb with
    | .error e => .error e
    | .ok mem1 =>
      match bwdN mem1 mem.model.nb with
      | .error e => .error e
      | .ok mem2 => .ok (mem2, (List.range mem.model.nb).map mem2.tau)

/-- rnea(model, q, qd, qdd, f_ext=None) -> tau. -/
noncomputable def rnea (m : Model) (q qd qdd : List ℝ)
    (fext : Option (List Vec6)) : Except Err (List ℝ) :=
  (rneaMem (mkMem m q qd qdd fext)).map Prod.snd

/-- A numpy ndarray of arbitrary shape, with its row-major element list;
flatten returns exactly that element list. -/
structure NDArr where
  shape : List ℕ
  data : List ℝ

/-- np.asarray(v).flatten(). -/
def NDArr.flatten (v : NDArr) : List ℝ := v.data

/-- skew on a raw ndarray: flatten, then assert v.shape == (3,), i.e. the
flattened length is 3, then build the matrix from the flattened entries. -/
def skewA (arr : NDArr) : Except Err Mat3 :=
  let v := arr.flatten
  if v.length = 3 then .ok (skew ![v.getD 0 0, v.getD 1 0, v.getD 2 0])
  else .error .shapeError

/-- crm on a raw ndarray: flatten, assert length 6, build. -/
def crmA (arr : NDArr) : Except Err Mat6 :=
  let v := arr.flatten
  if v.length = 6 then
    .ok (crm ![v.getD 0 0, v.getD 1 0, v.getD 2 0, v.getD 3 0, v.getD 4 0, v.getD 5 0])
  else .error .shapeError

/-- crf on a raw ndarray: flatten, assert length 6, build. -/
def crfA (arr : NDArr) : Except Err Mat6 :=
  let v := arr.flatten
  if v.length = 6 then
    .ok (crf ![v.getD 0 0, v.getD 1 0, v.getD 2 0, v.getD 3 0, v.getD 4 0, v.getD 5 0])
  else .error .shapeError

/-- Orthonormality of a 3x3 matrix, E @ E.T == I. -/
def Orthonormal3 (E : Mat3) : Prop := E * Eᵀ = 1

/-- The recurrence the claim states for the forward sweep at body i, read
against a memory holding the final sweep values. -/
noncomputable def FwdRec (m : Model) (q qd qdd : List ℝ) (mem : Mem) (i : ℕ) : Prop :=
  ∀ Xj S, jcalc (m.jtype i) (q.getD i 0) = .ok (Xj, S) →
    (m.parent i = -1 →
      mem.v i = qd.getD i 0 • S ∧
      mem.a i = Xj *ᵥ (-(aGrav m)) + qdd.getD i 0 • S) ∧
    (m.parent i ≠ -1 →
      mem.v i = (Xj * m.Xtree i) *ᵥ mem.v (m.parent i).toNat + qd.getD i 0 • S ∧
      mem.a i = (Xj * m.Xtree i) *ᵥ mem.a (m.parent i).toNat + qdd.getD i 0 • S
        + crm (mem.v i) *ᵥ (qd.getD i 0 • S))

/-- The composed transform Xup = Xj @ Xtree[j] of body j, the same
expression in both sweeps. -/
noncomputable def XupOf (m : Model) (q : List ℝ) (j : ℕ) : Mat6 :=
  (jcalcEl (m.jtype j) (q.getD j 0)).1 * m.Xtree j

/-- The motion subspace S of body i as recomputed in the backward sweep. -/
noncomputable def SOf (m : Model) (q : List ℝ) (i : ℕ) : Vec6 :=
  (jcalcEl (m.jtype i) (q.getD i 0)).2

/-- The Newton-Euler body wrench of body i read off a memory:
I[i] @ a[i] + crf(v[i]) @ (I[i] @ v[i]) - f_ext[:, i]. -/
noncomputable def BodyF (m : Model) (fext : Option (List Vec6)) (mem : Mem) (i : ℕ) : Vec6 :=
  m.I i *ᵥ mem.a i + crf (mem.v i) *ᵥ (m.I i *ᵥ mem.v i)
    - (fextCols m.nb fext).getD i 0

/-- Concrete empty model (NB = 0). -/
def M0 : Model := ⟨0, fun _ => -1, fun _ => "Rx", fun _ => 1, fun _ => 1, none⟩

/-- Concrete one-body model with a prismatic x joint hanging off the base. -/
def M1 : Model := ⟨1, fun _ => -1, fun _ => "Px", fun _ => 1, fun _ => 1, none⟩

/-- A shear matrix: determinant 1 but not orthonormal. -/
def Eshear : Mat3 := !![1, 1, 0; 0, 1, 0; 0, 0, 1]

/-- A diagonal matrix with determinant 1 + 5e-6: farther than 1e-6 from 1,
but inside the np.isclose tolerance actually used by xrot. -/
noncomputable def Edrift : Mat3 := !![1 + 5e-6, 0, 0; 0, 1, 0; 0, 0, 1]

/-- A memory for the empty model with pristine zero buffers. -/
def memA : Mem := mkMem M0 [] [] [] none

/-- The same caller data as memA but with garbage left in the v buffer:
rnea must not be affected, since it allocates fresh buffers. -/
def memB : Mem := { mkMem M0 [] [] [] none with v := fun _ => fun _ => 5 }

/-! ## Block-matrix algebra for the 6x6 spatial operators -/

theorem blk_mul (A B C D A2 B2 C2 D2 : Mat3) :
    blk A B C D * blk A2 B2 C2 D2 =
      blk (A * A2 + B * C2) (A * B2 + B * D2) (C * A2 + D * C2) (C * B2 + D * D2) := by
  unfold blk
  rw [Matrix.reindex_apply, Matrix.reindex_apply, Matrix.reindex_apply,
    Matrix.submatrix_mul_equiv, Matrix.fromBlocks_multiply]

theorem blk_transpose (A B C D : Mat3) : (blk A B C D)ᵀ = blk Aᵀ Cᵀ Bᵀ Dᵀ := by
  unfold blk
  rw [Matrix.reindex_apply, Matrix.reindex_apply, Matrix.transpose_submatrix,
    Matrix.fromBlocks_transpose]

theorem blk_neg (A B C D : Mat3) : -(blk A B C D) = blk (-A) (-B) (-C) (-D) := by
  unfold blk
  rw [Matrix.reindex_apply, Matrix.reindex_apply, ← Matrix.fromBlocks_neg]
  rfl

theorem blk_one : blk 1 0 0 1 = (1 : Mat6) := by
  unfold blk
  rw [Matrix.fromBlocks_one, Matrix.reindex_apply, Matrix.submatrix_one_equiv]

theorem skew_transpose (x : Vec3) : (skew x)ᵀ = -(skew x) := by
  ext i j
  fin_cases i <;> fin_cases j <;>
    simp [skew, Matrix.transpose_apply]

/-! ## jcalc equations -/

theorem det_rotx (q : ℝ) : (rotx q).det = 1 := by
  simp [Matrix.det_fin_three, rotx]
  nlinarith [Real.sin_sq_add_cos_sq q]

theorem det_roty (q : ℝ) : (roty q).det = 1 := by
  simp [Matrix.det_fin_three, roty]
  nlinarith [Real.sin_sq_add_cos_sq q]

theorem det_rotz (q : ℝ) : (rotz q).det = 1 := by
  simp [Matrix.det_fin_three, rotz]
  nlinarith [Real.sin_sq_add_cos_sq q]

theorem isclose_one_one : isclose 1 1 := by
  unfold isclose; norm_num

theorem xrot_of_isclose {E : Mat3} (h : isclose E.det 1) :
    xrot E = .ok (blk E 0 0 E) := by
  unfold xrot; rw [if_pos h]

theorem xrot_of_far {E : Mat3} (h : ¬ isclose E.det 1) :
    xrot E = .error .invalidRotation := by
  unfold xrot; rw [if_neg h]

theorem xrot_rotx (q : ℝ) : xrot (rotx q) = .ok (blk (rotx q) 0 0 (rotx q)) :=
  xrot_of_isclose (by rw [det_rotx]; exact isclose_one_one)

theorem xrot_roty (q : ℝ) : xrot (roty q) = .ok (blk (roty q) 0 0 (roty q)) :=
  xrot_of_isclose (by rw [det_roty]; exact isclose_one_one)

theorem xrot_rotz (q : ℝ) : xrot (rotz q) = .ok (blk (rotz q) 0 0 (rotz q)) :=
  xrot_of_isclose (by rw [det_rotz]; exact isclose_one_one)

theorem jcalc_Rx (q : ℝ) :
    jcalc "Rx" q = .ok (blk (rotx q) 0 0 (rotx q), ![1, 0, 0, 0, 0, 0]) := by
  unfold jcalc
  rw [if_pos rfl, xrot_rotx]
  rfl

theorem jcalc_Ry (q : ℝ) :
    jcalc "Ry" q = .ok (blk (roty q) 0 0 (roty q), ![0, 1, 0, 0, 0, 0]) := by
  unfold jcalc
  rw [if_neg (by decide), if_pos rfl, xrot_roty]
  rfl

theorem jcalc_Rz (q : ℝ) :
    jcalc "Rz" q = .ok (blk (rotz q) 0 0 (rotz q), ![0, 0, 1, 0, 0, 0]) := by
  unfold jcalc
  rw [if_neg (by decide), if_neg (by decide), if_pos rfl, xrot_rotz]
  rfl

theorem jcalc_Px (q : ℝ) :
    jcalc "Px" q = .ok (xlt ![q, 0, 0], ![0, 0, 0, 1, 0, 0]) := by
  unfold jcalc
  rw [if_neg (by decide), if_neg (by decide), if_neg (by decide), if_pos rfl]

theorem jcalc_Py (q : ℝ) :
    jcalc "Py" q = .ok (xlt ![0, q, 0], ![0, 0, 0, 0, 1, 0]) := by
  unfold jcalc
  rw [if_neg (by decide), if_neg (by decide), if_neg (by decide), if_neg (by decide),
    if_pos rfl]

theorem jcalc_Pz (q : ℝ) :
    jcalc "Pz" q = .ok (xlt ![0, 0, q], ![0, 0, 0, 0, 0, 1]) := by
  unfold jcalc
  rw [if_neg (by decide), if_neg (by decide), if_neg (by decide), if_neg (by decide),
    if_neg (by decide), if_pos rfl]

theorem jcalc_invalid {t : String} (h : ¬ ValidTag t) (q : ℝ) :
    jcalc t q = .error .unsupportedJointType := by
  unfold ValidTag at h
  push_neg at h
  obtain ⟨h1, h2, h3, h4, h5, h6⟩ := h
  unfold jcalc
  rw [if_neg h1, if_neg h2, if_neg h3, if_neg h4, if_neg h5, if_neg h6]

theorem jcalcEl_of_ok {t : String} {q : ℝ} {P : Mat6 × Vec6}
    (h : jcalc t q = .ok P) : jcalcEl t q = P := by
  unfold jcalcEl
  rw [h]
  rfl

theorem jcalc_of_valid {t : String} (h : ValidTag t) (q : ℝ) :
    jcalc t q = .ok (jcalcEl t q) := by
  rcases h with rfl | rfl | rfl | rfl | rfl | rfl
  · rw [jcalcEl_of_ok (jcalc_Rx q), jcalc_Rx]
  · rw [jcalcEl_of_ok (jcalc_Ry q), jcalc_Ry]
  · rw [jcalcEl_of_ok (jcalc_Rz q), jcalc_Rz]
  · rw [jcalcEl_of_ok (jcalc_Px q), jcalc_Px]
  · rw [jcalcEl_of_ok (jcalc_Py q), jcalc_Py]
  · rw [jcalcEl_of_ok (jcalc_Pz q), jcalc_Pz]

theorem rotz_zero : rotz 0 = (1 : Mat3) := by
  ext i j
  fin_cases i <;> fin_cases j <;>
    simp [rotz, Matrix.one_apply, Matrix.vecHead, Matrix.vecTail]

theorem jcalc_Rz_zero : jcalc "Rz" 0 = .ok ((1 : Mat6), ![0, 0, 1, 0, 0, 0]) := by
  rw [jcalc_Rz, rotz_zero, blk_one]

/-! ## Spatial operator identities -/

theorem crm_as_blk (v : Vec6) :
    crm v = blk (skew (angOf v)) 0 (skew (linOf v)) (skew (angOf v)) := rfl

theorem crf_as_blk (v : Vec6) :
    crf v = blk (skew (angOf v)) (skew (linOf v)) 0 (skew (angOf v)) := rfl

theorem xtrans_inv_core {E : Mat3} (r : Vec3) (h : E * Eᵀ = 1) :
    xtrans E r * inv_xtrans E r = (1 : Mat6) := by
  unfold xtrans inv_xtrans
  rw [blk_mul]
  have h1 : E * Eᵀ + (0 : Mat3) * (skew r * Eᵀ) = 1 := by
    rw [Matrix.zero_mul, add_zero, h]
  have h2 : E * (0 : Mat3) + (0 : Mat3) * Eᵀ = 0 := by
    rw [Matrix.mul_zero, Matrix.zero_mul, add_zero]
  have h3 : -(E * skew r) * Eᵀ + E * (skew r * Eᵀ) = 0 := by
    rw [Matrix.neg_mul, Matrix.mul_assoc]
    exact neg_add_cancel _
  have h4 : -(E * skew r) * (0 : Mat3) + E * Eᵀ = 1 := by
    rw [Matrix.mul_zero, zero_add, h]
  rw [h1, h2, h3, h4, blk_one]

/-! ## Determinant and orthonormality of the concrete counterexamples -/

theorem det_Eshear : Eshear.det = 1 := by
  simp [Eshear, Matrix.det_fin_three]

theorem det_Edrift : Edrift.det = 1 + 5e-6 := by
  simp [Edrift, Matrix.det_fin_three]

theorem isclose_drift : isclose (1 + 5e-6) 1 := by
  unfold isclose
  have h : (1 + 5e-6 : ℝ) - 1 = 5e-6 := by ring
  rw [h, abs_one, abs_of_nonneg (by norm_num : (0 : ℝ) ≤ 5e-6)]
  norm_num

theorem drift_outside_claimed_tol : ¬ (|Edrift.det - 1| ≤ 1e-6) := by
  rw [det_Edrift]
  have h : (1 + 5e-6 : ℝ) - 1 = 5e-6 := by ring
  rw [h, abs_of_nonneg (by norm_num : (0 : ℝ) ≤ 5e-6)]
  norm_num

theorem not_orthonormal_Eshear : ¬ Orthonormal3 Eshear := by
  intro h
  have h2 : (Eshear * Eshearᵀ) 0 0 = (1 : Mat3) 0 0 := by rw [h]
  simp [Eshear, Matrix.mul_apply, Fin.sum_univ_three, Matrix.one_apply,
    Matrix.transpose_apply] at h2

theorem not_orthonormal_Edrift : ¬ Orthonormal3 Edrift := by
  intro h
  have h2 : (Edrift * Edriftᵀ) 0 0 = (1 : Mat3) 0 0 := by rw [h]
  simp [Edrift, Matrix.mul_apply, Fin.sum_univ_three, Matrix.one_apply,
    Matrix.transpose_apply] at h2
  nlinarith [h2]

/-! ## Single-step characterizations of the two sweeps -/

theorem fwdStep_exists {mem : Mem} {i : ℕ} {P : Mat6 × Vec6}
    (hj : jcalc (mem.model.jtype i) (mem.q.getD i 0) = .ok P) :
    ∃ mem1, fwdStep mem i = .ok mem1 ∧
      mem1.model = mem.model ∧ mem1.q = mem.q ∧ mem1.qd = mem.qd ∧
      mem1.qdd = mem.qdd ∧ mem1.fext = mem.fext ∧
      mem1.f = mem.f ∧ mem1.tau = mem.tau ∧
      (∀ j, j ≠ i → mem1.v j = mem.v j ∧ mem1.a j = mem.a j) ∧
      (mem.model.parent i = -1 →
        mem1.v i = mem.qd.getD i 0 • P.2 ∧
        mem1.a i = P.1 *ᵥ (-(aGrav mem.model)) + mem.qdd.getD i 0 • P.2) ∧
      (mem.model.parent i ≠ -1 →
        mem1.v i = (P.1 * mem.model.Xtree i) *ᵥ mem.v (mem.model.parent i).toNat
            + mem.qd.getD i 0 • P.2 ∧
        mem1.a i = (P.1 * mem.model.Xtree i) *ᵥ mem.a (mem.model.parent i).toNat
            + mem.qdd.getD i 0 • P.2 + crm (mem1.v i) *ᵥ (mem.qd.getD i 0 • P.2)) := by
  obtain ⟨Xj, S⟩ := P
  by_cases hp : mem.model.parent i = -1
  · refine ⟨{ mem with
        v := Function.update mem.v i (mem.qd.getD i 0 • S),
        a := Function.update mem.a i
          (Xj *ᵥ (-(aGrav mem.model)) + mem.qdd.getD i 0 • S) },
      ?_, rfl, rfl, rfl, rfl, rfl, rfl, rfl, ?_, ?_, ?_⟩
    · simp only [fwdStep, hj]
      rw [if_pos hp]
    · exact fun j hji =>
        ⟨Function.update_noteq hji _ _, Function.update_noteq hji _ _⟩
    · exact fun _ => ⟨Function.update_same _ _ _, Function.update_same _ _ _⟩
    · exact fun h => absurd hp h
  · refine ⟨{ mem with
        v := Function.update mem.v i
          ((Xj * mem.model.Xtree i) *ᵥ mem.v (mem.model.parent i).toNat
            + mem.qd.getD i 0 • S),
        a := Function.update mem.a i
          ((Xj * mem.model.Xtree i) *ᵥ mem.a (mem.model.parent i).toNat
            + mem.qdd.getD i 0 • S
            + crm ((Xj * mem.model.Xtree i) *ᵥ mem.v (mem.model.parent i).toNat
                + mem.qd.getD i 0 • S) *ᵥ (mem.qd.getD i 0 • S)) },
      ?_, rfl, rfl, rfl, rfl, rfl, rfl, rfl, ?_, ?_, ?_⟩
    · simp only [fwdStep, hj]
      rw [if_neg hp]
    · exact fun j hji =>
        ⟨Function.update_noteq hji _ _, Function.update_noteq hji _ _⟩
    · exact fun h => absurd h hp
    · intro _
      refine ⟨Function.update_same _ _ _, ?_⟩
      simp only [Function.update_same]

theorem bwdStep_exists {mem : Mem} {i : ℕ} {P : Mat6 × Vec6}
    (hcol : i < (fextCols mem.model.nb mem.fext).length)
    (hj : jcalc (mem.model.jtype i) (mem.q.getD i 0) = .ok P) :
    ∃ mem1, bwdStep mem i = .ok mem1 ∧
      mem1.model = mem.model ∧ mem1.q = mem.q ∧ mem1.qd = mem.qd ∧
      mem1.qdd = mem.qdd ∧ mem1.fext = mem.fext ∧
      mem1.v = mem.v ∧ mem1.a = mem.a ∧
      (∀ j, j ≠ i → mem1.tau j = mem.tau j) ∧
      mem1.tau i = P.2 ⬝ᵥ (mem.f i + BodyF mem.model mem.fext mem i) ∧
      (mem.model.parent i = -1 →
        mem1.f = Function.update mem.f i (mem.f i + BodyF mem.model mem.fext mem i)) ∧
      (mem.model.parent i ≠ -1 →
        mem1.f = Function.update
          (Function.update mem.f i (mem.f i + BodyF mem.model mem.fext mem i))
          (mem.model.parent i).toNat
          ((Function.update mem.f i (mem.f i + BodyF mem.model mem.fext mem i))
              (mem.model.parent i).toNat
            + (P.1 * mem.model.Xtree i)ᵀ *ᵥ
              (mem.f i + BodyF mem.model mem.fext mem i))) := by
  obtain ⟨Xj, S⟩ := P
  have hbody : mem.model.I i *ᵥ mem.a i + crf (mem.v i) *ᵥ (mem.model.I i *ᵥ mem.v i)
      - (fextCols mem.model.nb mem.fext).getD i 0 = BodyF mem.model mem.fext mem i := rfl
  by_cases hp : mem.model.parent i = -1
  · refine ⟨{ mem with
        f := Function.update mem.f i (mem.f i + BodyF mem.model mem.fext mem i),
        tau := Function.update mem.tau i
          (S ⬝ᵥ Function.update mem.f i
            (mem.f i + BodyF mem.model mem.fext mem i) i) },
      ?_, rfl, rfl, rfl, rfl, rfl, rfl, rfl, ?_, ?_, fun _ => rfl, fun h => absurd hp h⟩
    · simp only [bwdStep, hj]
      rw [if_pos hcol, if_pos hp, hbody]
    · exact fun j hji => Function.update_noteq hji _ _
    · simp only [Function.update_same]
  · refine ⟨{ mem with
        f := Function.update
          (Function.update mem.f i (mem.f i + BodyF mem.model mem.fext mem i))
          (mem.model.parent i).toNat
          ((Function.update mem.f i (mem.f i + BodyF mem.model mem.fext mem i))
              (mem.model.parent i).toNat
            + (Xj * mem.model.Xtree i)ᵀ *ᵥ
              (mem.f i + BodyF mem.model mem.fext mem i)),
        tau := Function.update mem.tau i
          (S ⬝ᵥ Function.update mem.f i
            (mem.f i + BodyF mem.model mem.fext mem i) i) },
      ?_, rfl, rfl, rfl, rfl, rfl, rfl, rfl, ?_, ?_, fun h => absurd h hp, fun _ => rfl⟩
    · simp only [bwdStep, hj]
      rw [if_pos hcol, if_neg hp, hbody]
      congr 2
      rw [Function.update_same]
    · exact fun j hji => Function.update_noteq hji _ _
    · simp only [Function.update_same]

/-! ## The forward sweep -/

theorem fwd_run (m : Model) (q qd qdd : List ℝ) (fext : Option (List Vec6))
    (hwf : m.WF) (hvt : ∀ i, i < m.nb → ValidTag (m.jtype i)) :
    ∀ k, k ≤ m.nb → ∃ mem1,
      fwdN (mkMem m q qd qdd fext) k = .ok mem1 ∧
      mem1.model = m ∧ mem1.q = q ∧ mem1.qd = qd ∧ mem1.qdd = qdd ∧
      mem1.fext = fext ∧ mem1.f = (fun _ => (0 : Vec6)) ∧
      mem1.tau = (fun _ => (0 : ℝ)) ∧
      (∀ i, i < k → FwdRec m q qd qdd mem1 i) := by
  intro k
  induction k with
  | zero =>
    intro _
    exact ⟨mkMem m q qd qdd fext, rfl, rfl, rfl, rfl, rfl, rfl, rfl, rfl,
      fun i hi => absurd hi (Nat.not_lt_zero i)⟩
  | succ k ih =>
    intro hk1
    obtain ⟨memk, hrun, hm, hq2, hqd2, hqdd2, hfx2, hf2, htau2, hrec⟩ :=
      ih (Nat.le_of_succ_le hk1)
    have hkn : k < m.nb := hk1
    have hjc : jcalc (memk.model.jtype k) (memk.q.getD k 0)
        = .ok (jcalcEl (m.jtype k) (q.getD k 0)) := by
      rw [hm, hq2]
      exact jcalc_of_valid (hvt k hkn) _
    obtain ⟨mem1, hstep, g_m, g_q, g_qd, g_qdd, g_fx, g_f, g_tau, g_frame,
      g_base, g_par⟩ := fwdStep_exists hjc
    refine ⟨mem1, ?_, g_m.trans hm, g_q.trans hq2, g_qd.trans hqd2,
      g_qdd.trans hqdd2, g_fx.trans hfx2, g_f.trans hf2, g_tau.trans htau2, ?_⟩
    · simp only [fwdN]
      rw [hrun]
      exact hstep
    · intro i hik
      by_cases hik2 : i < k
      · intro Xj S hj2
        have hik3 : i ≠ k := by omega
        have hv : mem1.v i = memk.v i := (g_frame i hik3).1
        have ha : mem1.a i = memk.a i := (g_frame i hik3).2
        have old := hrec i hik2 Xj S hj2
        constructor
        · intro hpb
          rw [hv, ha]
          exact old.1 hpb
        · intro hpb
          have hw := hwf i (by omega)
          have hplt : (m.parent i).toNat < i := by omega
          have hpv : mem1.v (m.parent i).toNat = memk.v (m.parent i).toNat :=
            (g_frame _ (by omega)).1
          have hpa : mem1.a (m.parent i).toNat = memk.a (m.parent i).toNat :=
            (g_frame _ (by omega)).2
          rw [hv, ha, hpv, hpa]
          exact old.2 hpb
      · have hik3 : i = k := by omega
        subst hik3
        intro Xj S hj2
        have hE : jcalcEl (m.jtype i) (q.getD i 0) = (Xj, S) :=
          Except.ok.inj ((jcalc_of_valid (hvt i hkn) (q.getD i 0)).symm.trans hj2)
        constructor
        · intro hpb
          have g := g_base (by rw [hm]; exact hpb)
          rw [hE, hm, hqd2, hqdd2] at g
          exact g
        · intro hpb
          have g := g_par (by rw [hm]; exact hpb)
          rw [hE, hm, hqd2, hqdd2] at g
          have hw := hwf i hkn
          have hplt : (m.parent i).toNat < i := by omega
          have hpv : mem1.v (m.parent i).toNat = memk.v (m.parent i).toNat :=
            (g_frame _ (by omega)).1
          have hpa : mem1.a (m.parent i).toNat = memk.a (m.parent i).toNat :=
            (g_frame _ (by omega)).2
          rw [hpv, hpa]
          exact g

/-! ## The backward sweep -/

theorem bwd_run (m : Model) (q : List ℝ) (fext : Option (List Vec6))
    (hwf : m.WF) (hvt : ∀ i, i < m.nb → ValidTag (m.jtype i))
    (hfx : m.nb ≤ (fextCols m.nb fext).length) :
    ∀ k, k ≤ m.nb → ∀ mem : Mem, mem.model = m → mem.q = q → mem.fext = fext →
    ∃ mem2, bwdN mem k = .ok mem2 ∧
      mem2.model = m ∧ mem2.q = q ∧ mem2.qd = mem.qd ∧ mem2.qdd = mem.qdd ∧
      mem2.fext = fext ∧ mem2.v = mem.v ∧ mem2.a = mem.a ∧
      (∀ i, k ≤ i → mem2.tau i = mem.tau i) ∧
      (∀ i, i < k → mem2.tau i = SOf m q i ⬝ᵥ mem2.f i) ∧
      (∀ i, mem2.f i = mem.f i
        + (if i < k then BodyF m fext mem i else 0)
        + ∑ j ∈ Finset.range k,
            (if m.parent j = (i : ℤ) then (XupOf m q j)ᵀ *ᵥ mem2.f j else 0)) := by
  intro k
  induction k with
  | zero =>
    intro _ mem hm hq2 hfx2
    refine ⟨mem, rfl, hm, hq2, rfl, rfl, hfx2, rfl, rfl, fun i _ => rfl,
      fun i hi => absurd hi (Nat.not_lt_zero i), fun i => ?_⟩
    simp
  | succ k ih =>
    intro hk1 mem hm hq2 hfx2
    have hkn : k < m.nb := hk1
    have hcol : k < (fextCols mem.model.nb mem.fext).length := by
      rw [hm, hfx2]; omega
    have hjc : jcalc (mem.model.jtype k) (mem.q.getD k 0)
        = .ok (jcalcEl (m.jtype k) (q.getD k 0)) := by
      rw [hm, hq2]
      exact jcalc_of_valid (hvt k hkn) _
    obtain ⟨mem1, hstep, g_m, g_q, g_qd, g_qdd, g_fx, g_v, g_a, g_tauF, g_tauK,
      g_fbase, g_fpar⟩ := bwdStep_exists hcol hjc
    rw [hm, hfx2] at g_tauK g_fbase g_fpar
    obtain ⟨mem2, hrun, h2m, h2q, h2qd, h2qdd, h2fx, h2v, h2a, h2tauF, h2tauI, h2f⟩ :=
      ih (by omega) mem1 (g_m.trans hm) (g_q.trans hq2) (g_fx.trans hfx2)
    have hB1 : ∀ i, BodyF m fext mem1 i = BodyF m fext mem i := by
      intro i
      unfold BodyF
      rw [g_v, g_a]
    have hsum0 : ∀ i : ℕ, k ≤ i →
        (∑ j ∈ Finset.range k,
          (if m.parent j = (i : ℤ) then (XupOf m q j)ᵀ *ᵥ mem2.f j else 0)) = 0 := by
      intro i hi
      refine Finset.sum_eq_zero ?_
      intro j hj
      rw [Finset.mem_range] at hj
      have hw := hwf j (by omega)
      rw [if_neg (by omega)]
    have h2fk : mem2.f k = mem1.f k := by
      have h := h2f k
      rw [if_neg (by omega), hsum0 k (le_refl k)] at h
      simpa using h
    have hmem1fk : mem1.f k = mem.f k + BodyF m fext mem k := by
      by_cases hpk : m.parent k = -1
      · rw [g_fbase hpk, Function.update_same]
      · have hw := hwf k hkn
        have hplt : (m.parent k).toNat < k := by omega
        rw [g_fpar hpk, Function.update_noteq (by omega), Function.update_same]
    refine ⟨mem2, ?_, h2m, h2q, h2qd.trans g_qd, h2qdd.trans g_qdd, h2fx,
      h2v.trans g_v, h2a.trans g_a, ?_, ?_, ?_⟩
    · simp only [bwdN]
      rw [hstep]
      exact hrun
    · intro i hi
      rw [h2tauF i (by omega), g_tauF i (by omega)]
    · intro i hi
      by_cases hik : i < k
      · exact h2tauI i hik
      · have hik2 : i = k := by omega
        subst hik2
        rw [h2tauF i (le_refl i), g_tauK, h2fk, hmem1fk]
        rfl
    · intro i
      rw [Finset.sum_range_succ]
      have hIH := h2f i
      rw [hB1 i] at hIH
      by_cases hpk : m.parent k = -1
      · have hm1fi : mem1.f i
            = mem.f i + (if i = k then BodyF m fext mem k else 0) := by
          rw [g_fbase hpk]
          by_cases hik : i = k
          · subst hik
            rw [Function.update_same, if_pos rfl]
          · rw [Function.update_noteq hik, if_neg hik, add_zero]
        have hlast : (if m.parent k = (i : ℤ)
            then (XupOf m q k)ᵀ *ᵥ mem2.f k else 0) = 0 := by
          rw [if_neg (by omega)]
        rw [hIH, hm1fi, hlast]
        by_cases hik : i = k
        · subst hik
          rw [if_pos rfl, if_neg (lt_irrefl i), if_pos (Nat.lt_succ_self i)]
          abel
        · rw [if_neg hik]
          by_cases hik2 : i < k
          · rw [if_pos hik2, if_pos (by omega : i < k + 1)]
            abel
          · rw [if_neg hik2, if_neg (by omega : ¬ i < k + 1)]
            abel
      · have hw := hwf k hkn
        have hp0 : (0 : ℤ) ≤ m.parent k := by omega
        have hplt : (m.parent k).toNat < k := by omega
        have hfk2 : mem2.f k = mem.f k + BodyF m fext mem k := h2fk.trans hmem1fk
        have hm1f : mem1.f i
            = (if i = k then mem.f k + BodyF m fext mem k
              else if i = (m.parent k).toNat
                then mem.f (m.parent k).toNat
                  + (XupOf m q k)ᵀ *ᵥ (mem.f k + BodyF m fext mem k)
                else mem.f i) := by
          rw [g_fpar hpk]
          by_cases hik : i = k
          · subst hik
            rw [if_pos rfl, Function.update_noteq (by omega), Function.update_same]
          · rw [if_neg hik]
            by_cases hip : i = (m.parent k).toNat
            · subst hip
              rw [if_pos rfl, Function.update_same, Function.update_noteq (by omega)]
              rfl
            · rw [if_neg hip, Function.update_noteq hip, Function.update_noteq hik]
        rw [hIH, hm1f]
        by_cases hik : i = k
        · subst hik
          rw [if_pos rfl, if_neg (lt_irrefl i), if_pos (Nat.lt_succ_self i),
            if_neg (by omega : ¬ m.parent i = (i : ℤ))]
          abel
        · rw [if_neg hik]
          by_cases hip : i = (m.parent k).toNat
          · subst hip
            rw [if_pos rfl, if_pos (by omega : (m.parent k).toNat < k),
              if_pos (by omega : (m.parent k).toNat < k + 1),
              if_pos (by omega : m.parent k = ((m.parent k).toNat : ℤ)), hfk2]
            abel
          · rw [if_neg hip, if_neg (by omega : ¬ m.parent k = (i : ℤ))]
            by_cases hik2 : i < k
            · rw [if_pos hik2, if_pos (by omega : i < k + 1)]
              abel
            · rw [if_neg hik2, if_neg (by omega : ¬ i < k + 1)]
              abel

/-! ## Frame lemmas: neither sweep touches the caller-supplied data -/

theorem fwdStep_frame {mem mem1 : Mem} {i : ℕ} (h : fwdStep mem i = .ok mem1) :
    mem1.model = mem.model ∧ mem1.q = mem.q ∧ mem1.qd = mem.qd ∧
    mem1.qdd = mem.qdd ∧ mem1.fext = mem.fext := by
  unfold fwdStep at h
  cases hj : jcalc (mem.model.jtype i) (mem.q.getD i 0) with
  | error e =>
    simp only [hj] at h
    exact Except.noConfusion h
  | ok P =>
    obtain ⟨Xj, S⟩ := P
    simp only [hj] at h
    by_cases hp : mem.model.parent i = -1
    · rw [if_pos hp] at h
      injection h with h
      subst h
      exact ⟨rfl, rfl, rfl, rfl, rfl⟩
    · rw [if_neg hp] at h
      injection h with h
      subst h
      exact ⟨rfl, rfl, rfl, rfl, rfl⟩

theorem bwdStep_frame {mem mem1 : Mem} {i : ℕ} (h : bwdStep mem i = .ok mem1) :
    mem1.model = mem.model ∧ mem1.q = mem.q ∧ mem1.qd = mem.qd ∧
    mem1.qdd = mem.qdd ∧ mem1.fext = mem.fext := by
  unfold bwdStep at h
  by_cases hc : i < (fextCols mem.model.nb mem.fext).length
  · rw [if_pos hc] at h
    cases hj : jcalc (mem.model.jtype i) (mem.q.getD i 0) with
    | error e =>
      simp only [hj] at h
      exact Except.noConfusion h
    | ok P =>
      obtain ⟨Xj, S⟩ := P
      simp only [hj] at h
      by_cases hp : mem.model.parent i = -1
      · rw [if_pos hp] at h
        injection h with h
        subst h
        exact ⟨rfl, rfl, rfl, rfl, rfl⟩
      · rw [if_neg hp] at h
        injection h with h
        subst h
        exact ⟨rfl, rfl, rfl, rfl, rfl⟩
  · rw [if_neg hc] at h
    exact Except.noConfusion h

theorem fwdN_frame : ∀ (k : ℕ) (mem mem1 : Mem), fwdN mem k = .ok mem1 →
    mem1.model = mem.model ∧ mem1.q = mem.q ∧ mem1.qd = mem.qd ∧
    mem1.qdd = mem.qdd ∧ mem1.fext = mem.fext := by
  intro k
  induction k with
  | zero =>
    intro mem mem1 h
    simp only [fwdN] at h
    injection h with h
    subst h
    exact ⟨rfl, rfl, rfl, rfl, rfl⟩
  | succ k ih =>
    intro mem mem1 h
    simp only [fwdN] at h
    cases hk : fwdN mem k with
    | error e =>
      simp only [hk] at h
      exact Except.noConfusion h
    | ok memk =>
      simp only [hk] at h
      obtain ⟨a1, a2, a3, a4, a5⟩ := ih mem memk hk
      obtain ⟨b1, b2, b3, b4, b5⟩ := fwdStep_frame h
      exact ⟨b1.trans a1, b2.trans a2, b3.trans a3, b4.trans a4, b5.trans a5⟩

theorem bwdN_frame : ∀ (k : ℕ) (mem mem1 : Mem), bwdN mem k = .ok mem1 →
    mem1.model = mem.model ∧ mem1.q = mem.q ∧ mem1.qd = mem.qd ∧
    mem1.qdd = mem.qdd ∧ mem1.fext = mem.fext := by
  intro k
  induction k with
  | zero =>
    intro mem mem1 h
    simp only [bwdN] at h
    injection h with h
    subst h
    exact ⟨rfl, rfl, rfl, rfl, rfl⟩
  | succ k ih =>
    intro mem mem1 h
    simp only [bwdN] at h
    cases hk : bwdStep mem k with
    | error e =>
      simp only [hk] at h
      exact Except.noConfusion h
    | ok memk =>
      simp only [hk] at h
      obtain ⟨a1, a2, a3, a4, a5⟩ := bwdStep_frame hk
      obtain ⟨b1, b2, b3, b4, b5⟩ := ih memk mem1 h
      exact ⟨b1.trans a1, b2.trans a2, b3.trans a3, b4.trans a4, b5.trans a5⟩

/-! ## rneaMem on well-sized inputs -/

theorem rneaMem_mk (m : Model) (q qd qdd : List ℝ) (fext : Option (List Vec6))
    (hq : q.length = m.nb) (hqd : qd.length = m.nb) (hqdd : qdd.length = m.nb) :
    rneaMem (mkMem m q qd qdd fext)
      = match fwdN (mkMem m q qd qdd fext) m.nb with
        | .error e => .error e
        | .ok mem1 =>
          match bwdN mem1 m.nb with
          | .error e => .error e
          | .ok mem2 => .ok (mem2, (List.range m.nb).map mem2.tau) := by
  unfold rneaMem
  simp only [mkMem]
  rw [if_neg (fun hc => hc hq), if_neg (fun hc => hc hqd), if_neg (fun hc => hc hqdd)]

/-! ## Claim theorems -/

/-- C1: for a topologically ordered model with valid joint tags and inputs of
length NB, the forward pass of rnea succeeds and computes, for each body i
with (Xj, S) = jcalc(jtype[i], q[i]) and vJ = S*qd[i]: at the base
(parent = -1), v[i] = vJ and a[i] = Xj @ (-gravity) + S*qdd[i], using Xj
alone; otherwise, with p = parent[i] and Xup = Xj @ Xtree[i],
v[i] = Xup @ v[p] + vJ and a[i] = Xup @ a[p] + S*qdd[i] + crm(v[i]) @ vJ.
The bodies are processed in increasing index order (fwdN peels index k last),
so the parent entries read are final. -/
theorem rnea_forward_recurrence (m : Model) (q qd qdd : List ℝ)
    (fext : Option (List Vec6)) (hwf : m.WF)
    (hvt : ∀ i, i < m.nb → ValidTag (m.jtype i))
    (hq : q.length = m.nb) (hqd : qd.length = m.nb) (hqdd : qdd.length = m.nb) :
    ∃ mem1, fwdN (mkMem m q qd qdd fext) m.nb = .ok mem1 ∧
      ∀ i, i < m.nb → FwdRec m q qd qdd mem1 i := by
  obtain ⟨mem1, hrun, _, _, _, _, _, _, _, hrec⟩ :=
    fwd_run m q qd qdd fext hwf hvt m.nb (le_refl _)
  exact ⟨mem1, hrun, hrec⟩

/-- Witness for C1 at the concrete one-body prismatic model. -/
theorem rnea_forward_recurrence_instance :
    ∃ mem1, fwdN (mkMem M1 [0] [0] [0] none) M1.nb = .ok mem1 ∧
      ∀ i, i < M1.nb → FwdRec M1 [0] [0] [0] mem1 i :=
  rnea_forward_recurrence M1 [0] [0] [0] none
    (by intro i hi; show (-1 : ℤ) ≤ -1 ∧ (-1 : ℤ) < (i : ℤ); omega)
    (by intro i hi; show ValidTag "Px"; decide)
    rfl rfl rfl

/-- C2: for a topologically ordered model with valid tags, well-sized q, qd,
qdd and an f_ext with at least NB columns, the backward pass (which bwdN
performs in strictly decreasing index order) succeeds, and in the final state
every body i carries f[i] = (I[i] @ a[i] + crf(v[i]) @ (I[i] @ v[i])
- f_ext[:,i]) plus the propagated Xup^T @ f[j] over its children j
(parent[j] = i), with tau[i] = S(i) . f[i] for the S recomputed by jcalc and
Xup the same composed transform Xj @ Xtree[j] as in the forward pass;
rnea returns exactly this tau, of length NB. -/
theorem rnea_backward_accumulation (m : Model) (q qd qdd : List ℝ)
    (fext : Option (List Vec6)) (hwf : m.WF)
    (hvt : ∀ i, i < m.nb → ValidTag (m.jtype i))
    (hq : q.length = m.nb) (hqd : qd.length = m.nb) (hqdd : qdd.length = m.nb)
    (hfx : m.nb ≤ (fextCols m.nb fext).length) :
    ∃ mem1 mem2,
      fwdN (mkMem m q qd qdd fext) m.nb = .ok mem1 ∧
      bwdN mem1 m.nb = .ok mem2 ∧
      (∀ i, i < m.nb →
        mem2.f i = (m.I i *ᵥ mem2.a i + crf (mem2.v i) *ᵥ (m.I i *ᵥ mem2.v i)
            - (fextCols m.nb fext).getD i 0)
          + ∑ j ∈ Finset.range m.nb,
              (if m.parent j = (i : ℤ) then (XupOf m q j)ᵀ *ᵥ mem2.f j else 0) ∧
        mem2.tau i = SOf m q i ⬝ᵥ mem2.f i) ∧
      rnea m q qd qdd fext = .ok ((List.range m.nb).map mem2.tau) ∧
      ((List.range m.nb).map mem2.tau).length = m.nb := by
  obtain ⟨mem1, hrun1, h1m, h1q, h1qd, h1qdd, h1fx, h1f, h1tau, hrec⟩ :=
    fwd_run m q qd qdd fext hwf hvt m.nb (le_refl _)
  obtain ⟨mem2, hrun2, h2m, h2q, h2qd, h2qdd, h2fx, h2v, h2a, h2tauF, h2tauI, h2f⟩ :=
    bwd_run m q fext hwf hvt hfx m.nb (le_refl _) mem1 h1m h1q h1fx
  refine ⟨mem1, mem2, hrun1, hrun2, ?_, ?_, by simp⟩
  · intro i hi
    constructor
    · have h := h2f i
      rw [if_pos hi] at h
      simp only [h1f] at h
      unfold BodyF at h
      rw [← h2v, ← h2a, zero_add] at h
      exact h
    · exact h2tauI i hi
  · unfold rnea
    rw [rneaMem_mk m q qd qdd fext hq hqd hqdd]
    simp only [hrun1, hrun2]
    rfl

/-- Witness for C2 at the concrete one-body prismatic model. -/
theorem rnea_backward_accumulation_instance :
    ∃ mem1 mem2,
      fwdN (mkMem M1 [0] [0] [0] none) M1.nb = .ok mem1 ∧
      bwdN mem1 M1.nb = .ok mem2 ∧
      (∀ i, i < M1.nb →
        mem2.f i = (M1.I i *ᵥ mem2.a i + crf (mem2.v i) *ᵥ (M1.I i *ᵥ mem2.v i)
            - (fextCols M1.nb none).getD i 0)
          + ∑ j ∈ Finset.range M1.nb,
              (if M1.parent j = (i : ℤ) then (XupOf M1 [0] j)ᵀ *ᵥ mem2.f j else 0) ∧
        mem2.tau i = SOf M1 [0] i ⬝ᵥ mem2.f i) ∧
      rnea M1 [0] [0] [0] none = .ok ((List.range M1.nb).map mem2.tau) ∧
      ((List.range M1.nb).map mem2.tau).length = M1.nb :=
  rnea_backward_accumulation M1 [0] [0] [0] none
    (by intro i hi; show (-1 : ℤ) ≤ -1 ∧ (-1 : ℤ) < (i : ℤ); omega)
    (by intro i hi; show ValidTag "Px"; decide)
    rfl rfl rfl (by simp [fextCols, M1])

/-- C3 counterexample: rnea does not validate f_ext at all.  With the empty
model (NB = 0) and an f_ext of shape 6x1 (one column, so not 6xNB), the call
returns tau = [] successfully instead of raising DimensionMismatch. -/
theorem rnea_fext_shape_unchecked :
    (([fun _ => (1 : ℝ)] : List Vec6)).length ≠ M0.nb ∧
    rnea M0 [] [] [] (some [fun _ => (1 : ℝ)]) = .ok [] := by
  constructor
  · show 1 ≠ 0
    decide
  · rfl

/-- C3 amended: rnea raises DimensionMismatch whenever the (flattened)
length of q, qd or qdd differs from NB; the shape of a supplied f_ext is
never checked up front (a wide f_ext is silently accepted, a narrow one can
only fail later with numpy's own IndexError during the backward sweep). -/
theorem rnea_length_check (m : Model) (q qd qdd : List ℝ)
    (fext : Option (List Vec6))
    (h : q.length ≠ m.nb ∨ qd.length ≠ m.nb ∨ qdd.length ≠ m.nb) :
    rnea m q qd qdd fext = .error .dimensionMismatch := by
  unfold rnea rneaMem
  simp only [mkMem]
  by_cases h1 : q.length ≠ m.nb
  · rw [if_pos h1]
    rfl
  · rw [if_neg h1]
    by_cases h2 : qd.length ≠ m.nb
    · rw [if_pos h2]
      rfl
    · rw [if_neg h2]
      have h3 : qdd.length ≠ m.nb := by tauto
      rw [if_pos h3]
      rfl

/-- Witness for the amended C3: a q of length 0 against NB = 1. -/
theorem rnea_length_check_instance :
    rnea M1 [] [0] [0] none = .error .dimensionMismatch :=
  rnea_length_check M1 [] [0] [0] none (Or.inl (by show (0 : ℕ) ≠ 1; decide))

/-- C4 counterexample: xrot checks only the determinant, never
orthonormality.  The shear matrix (det = 1, not orthonormal) is accepted,
and so is a diagonal matrix whose determinant differs from 1 by 5e-6 — more
than the claimed 1e-6, but inside the tolerance np.isclose actually uses
(atol 1e-6 plus default rtol 1e-5). -/
theorem xrot_accepts_nonorthonormal :
    (¬ Orthonormal3 Eshear ∧ Eshear.det = 1 ∧
      xrot Eshear = .ok (blk Eshear 0 0 Eshear)) ∧
    (¬ Orthonormal3 Edrift ∧ ¬ (|Edrift.det - 1| ≤ 1e-6) ∧
      xrot Edrift = .ok (blk Edrift 0 0 Edrift)) := by
  refine ⟨⟨not_orthonormal_Eshear, det_Eshear, ?_⟩,
    ⟨not_orthonormal_Edrift, drift_outside_claimed_tol, ?_⟩⟩
  · exact xrot_of_isclose (by rw [det_Eshear]; exact isclose_one_one)
  · exact xrot_of_isclose (by rw [det_Edrift]; exact isclose_drift)

/-- C4 amended: xrot accepts a 3x3 matrix E exactly when
np.isclose(det E, 1, atol=1e-6) holds, i.e. |det E - 1| <= 1e-6 + 1e-5*|1|,
regardless of orthonormality, returning [[E,0],[0,E]]; otherwise it raises
InvalidRotation — in particular for a scaled identity (det 2I = 8). -/
theorem xrot_det_check (E : Mat3) :
    (isclose E.det 1 → xrot E = .ok (blk E 0 0 E)) ∧
    (¬ isclose E.det 1 → xrot E = .error .invalidRotation) ∧
    xrot ((2 : ℝ) • (1 : Mat3)) = .error .invalidRotation := by
  refine ⟨xrot_of_isclose, xrot_of_far, ?_⟩
  apply xrot_of_far
  rw [Matrix.det_smul, Matrix.det_one]
  intro hcontra
  unfold isclose at hcontra
  rw [abs_one] at hcontra
  have h8 : ((2 : ℝ) ^ Fintype.card (Fin 3) * 1) = 8 := by
    norm_num [Fintype.card_fin]
  rw [h8] at hcontra
  have h7 : ((8 : ℝ) - 1) = 7 := by norm_num
  rw [h7, abs_of_nonneg (by norm_num : (0 : ℝ) ≤ 7)] at hcontra
  norm_num at hcontra

/-- Witness for the amended C4 at the identity matrix. -/
theorem xrot_det_check_instance :
    isclose (Matrix.det (1 : Mat3)) 1 ∧
    xrot (1 : Mat3) = .ok (blk 1 0 0 1) := by
  have hd : Matrix.det (1 : Mat3) = 1 := Matrix.det_one
  exact ⟨by rw [hd]; exact isclose_one_one,
    (xrot_det_check 1).1 (by rw [hd]; exact isclose_one_one)⟩

/-- C5: for every 6-vector v, crf(v) equals -crm(v)^T exactly. -/
theorem crf_eq_neg_crm_transpose (v : Vec6) : crf v = -(crm v)ᵀ := by
  rw [crf_as_blk, crm_as_blk, blk_transpose, blk_neg, skew_transpose,
    skew_transpose, neg_neg, neg_neg, Matrix.transpose_zero, neg_zero]

/-- C6: for every right-orthonormal E (in particular every rotation) and
every translation r, xtrans(E, r) @ inv_xtrans(E, r) is exactly the 6x6
identity over real arithmetic. -/
theorem xtrans_inv_xtrans_identity (E : Mat3) (r : Vec3) (h : Orthonormal3 E) :
    xtrans E r * inv_xtrans E r = (1 : Mat6) :=
  xtrans_inv_core r h

/-- Witness for C6 at the identity rotation and a nonzero translation. -/
theorem xtrans_inv_xtrans_identity_instance :
    xtrans 1 ![1, 2, 3] * inv_xtrans 1 ![1, 2, 3] = (1 : Mat6) :=
  xtrans_inv_xtrans_identity 1 ![1, 2, 3]
    (by show (1 : Mat3) * (1 : Mat3)ᵀ = 1; rw [Matrix.transpose_one, mul_one])

/-- C7: jcalc implements the closed six-tag enumeration — the exact
transform/subspace table for Rx, Ry, Rz, Px, Py, Pz (for every real q; the
revolute rotations pass xrot's determinant check since det = cos^2 + sin^2
= 1), with jcalc("Rz", 0) = (I(6), [0,0,1,0,0,0]), and every other tag
raising UnsupportedJointType. -/
theorem jcalc_enumeration :
    (∀ q : ℝ, jcalc "Rx" q
      = .ok (blk (rotx q) 0 0 (rotx q), ![1, 0, 0, 0, 0, 0])) ∧
    (∀ q : ℝ, jcalc "Ry" q
      = .ok (blk (roty q) 0 0 (roty q), ![0, 1, 0, 0, 0, 0])) ∧
    (∀ q : ℝ, jcalc "Rz" q
      = .ok (blk (rotz q) 0 0 (rotz q), ![0, 0, 1, 0, 0, 0])) ∧
    (∀ q : ℝ, jcalc "Px" q = .ok (xlt ![q, 0, 0], ![0, 0, 0, 1, 0, 0])) ∧
    (∀ q : ℝ, jcalc "Py" q = .ok (xlt ![0, q, 0], ![0, 0, 0, 0, 1, 0])) ∧
    (∀ q : ℝ, jcalc "Pz" q = .ok (xlt ![0, 0, q], ![0, 0, 0, 0, 0, 1])) ∧
    jcalc "Rz" 0 = .ok ((1 : Mat6), ![0, 0, 1, 0, 0, 0]) ∧
    (∀ t : String, ¬ ValidTag t → ∀ q : ℝ,
      jcalc t q = .error .unsupportedJointType) :=
  ⟨jcalc_Rx, jcalc_Ry, jcalc_Rz, jcalc_Px, jcalc_Py, jcalc_Pz, jcalc_Rz_zero,
    fun _ ht q => jcalc_invalid ht q⟩

/-- Witness for C7: an unknown tag raises. -/
theorem jcalc_enumeration_instance :
    ¬ ValidTag "Qq" ∧ jcalc "Qq" 0 = .error .unsupportedJointType :=
  ⟨by decide, jcalc_enumeration.2.2.2.2.2.2.2 "Qq" (by decide) 0⟩

/-- C8: rnea is a pure function of (model, q, qd, qdd, f_ext).  First, a
successful call leaves the caller-visible memory — the model and the input
arrays — unchanged.  Second, two calls on memories that agree on those five
inputs produce identical results, whatever stale contents the per-call
buffers v, a, f, tau held before the call: rnea allocates them afresh. -/
theorem rnea_pure_function :
    (∀ mem : Mem, ∀ r : Mem × List ℝ, rneaMem mem = .ok r →
      r.1.model = mem.model ∧ r.1.q = mem.q ∧ r.1.qd = mem.qd ∧
      r.1.qdd = mem.qdd ∧ r.1.fext = mem.fext) ∧
    (∀ memX memY : Mem, memX.model = memY.model → memX.q = memY.q →
      memX.qd = memY.qd → memX.qdd = memY.qdd → memX.fext = memY.fext →
      rneaMem memX = rneaMem memY) := by
  constructor
  · intro mem r h
    unfold rneaMem at h
    by_cases h1 : mem.q.length ≠ mem.model.nb
    · rw [if_pos h1] at h
      exact Except.noConfusion h
    rw [if_neg h1] at h
    by_cases h2 : mem.qd.length ≠ mem.model.nb
    · rw [if_pos h2] at h
      exact Except.noConfusion h
    rw [if_neg h2] at h
    by_cases h3 : mem.qdd.length ≠ mem.model.nb
    · rw [if_pos h3] at h
      exact Except.noConfusion h
    rw [if_neg h3] at h
    cases hf : fwdN (mkMem mem.model mem.q mem.qd mem.qdd mem.fext) mem.model.nb with
    | error e =>
      simp only [hf] at h
      exact Except.noConfusion h
    | ok mem1 =>
      simp only [hf] at h
      cases hb : bwdN mem1 mem.model.nb with
      | error e =>
        simp only [hb] at h
        exact Except.noConfusion h
      | ok mem2 =>
        simp only [hb] at h
        injection h with h
        subst h
        obtain ⟨a1, a2, a3, a4, a5⟩ := fwdN_frame _ _ _ hf
        obtain ⟨b1, b2, b3, b4, b5⟩ := bwdN_frame _ _ _ hb
        exact ⟨b1.trans a1, b2.trans a2, b3.trans a3, b4.trans a4, b5.trans a5⟩
  · intro memX memY h1 h2 h3 h4 h5
    unfold rneaMem
    rw [h1, h2, h3, h4, h5]

/-- Witness for C8: two memories over the empty model that differ only in
the stale v buffer give identical results. -/
theorem rnea_pure_function_instance :
    memA.v ≠ memB.v ∧ rneaMem memA = rneaMem memB := by
  constructor
  · intro hcontra
    have h0 := congrFun (congrFun hcontra 0) 0
    simp only [memA, memB, mkMem, Pi.zero_apply] at h0
    norm_num at h0
  · exact rnea_pure_function.2 memA memB rfl rfl rfl rfl rfl

/-- C9: the shape checks of skew, crm and crf apply to the flattened input:
for a well-formed ndarray (element count = product of the shape), skew
succeeds exactly when the total element count is 3, whatever the shape, and
builds its matrix from the flattened entries; crm and crf likewise with 6;
all three raise the length ShapeError otherwise. -/
theorem flattened_shape_checks (arr : NDArr)
    (hlen : arr.data.length = arr.shape.prod) :
    ((arr.shape.prod = 3 → skewA arr
        = .ok (skew ![arr.data.getD 0 0, arr.data.getD 1 0, arr.data.getD 2 0])) ∧
      (arr.shape.prod ≠ 3 → skewA arr = .error .shapeError)) ∧
    ((arr.shape.prod = 6 → crmA arr
        = .ok (crm ![arr.data.getD 0 0, arr.data.getD 1 0, arr.data.getD 2 0,
            arr.data.getD 3 0, arr.data.getD 4 0, arr.data.getD 5 0])) ∧
      (arr.shape.prod ≠ 6 → crmA arr = .error .shapeError)) ∧
    ((arr.shape.prod = 6 → crfA arr
        = .ok (crf ![arr.data.getD 0 0, arr.data.getD 1 0, arr.data.getD 2 0,
            arr.data.getD 3 0, arr.data.getD 4 0, arr.data.getD 5 0])) ∧
      (arr.shape.prod ≠ 6 → crfA arr = .error .shapeError)) := by
  refine ⟨⟨?_, ?_⟩, ⟨?_, ?_⟩, ⟨?_, ?_⟩⟩ <;> intro h <;>
    simp only [skewA, crmA, crfA, NDArr.flatten] <;>
    rw [hlen]
  · rw [if_pos h]
  · rw [if_neg h]
  · rw [if_pos h]
  · rw [if_neg h]
  · rw [if_pos h]
  · rw [if_neg h]

/-- Witness for C9: a 1x3 ndarray (not shape (3,)) is accepted by skew. -/
theorem flattened_shape_checks_instance :
    (NDArr.mk [1, 3] [9, 8, 7]).shape.prod = 3 ∧
    skewA (NDArr.mk [1, 3] [9, 8, 7]) = .ok (skew ![9, 8, 7]) := by
  refine ⟨by decide, ?_⟩
  exact (flattened_shape_checks (NDArr.mk [1, 3] [9, 8, 7]) (by decide)).1.1
    (by decide)

/-- C10: for any model with NB = 0 and empty inputs, with f_ext omitted or
supplied as a 6x0 array, rnea raises no error: both sweeps perform zero
iterations and the call returns the empty tau. -/
theorem rnea_empty_model (m : Model) (h : m.nb = 0) :
    rnea m [] [] [] none = .ok [] ∧ rnea m [] [] [] (some []) = .ok [] := by
  constructor <;>
  · unfold rnea
    rw [rneaMem_mk m [] [] [] _ (by simp [h]) (by simp [h]) (by simp [h])]
    rw [h]
    simp only [fwdN, bwdN, List.range_zero, List.map_nil]
    rfl

/-- Witness for C10 at the concrete empty model. -/
theorem rnea_empty_model_instance :
    rnea M0 [] [] [] none = .ok [] ∧ rnea M0 [] [] [] (some []) = .ok [] :=
  rnea_empty_model M0 rfl

end PinocchioGolf
